import Mathlib

/-!
Verification of the Esp32Radio streaming audio engine (esp32_radio.cc).

This file gives a shallow embedding, in Lean 4, of the pure computational
content of the Esp32Radio class: the bounded audio-chunk buffer shared by
the downloader and the decoder, the ID3v2 tag skip, the MP3 frame duration
computation, the stereo-to-mono downmix, URL resolution, LRC lyric parsing
(including a bit-exact model of the IEEE-754 binary32 arithmetic performed
by std::stof and the float multiplication in the timestamp computation),
the lyric-line matcher, and the lyric-download retry loop.

Modelling conventions:
* machine integers are modelled as Nat/Int with explicit wrapping where the
  source can wrap (e.g. the int16_t cast in the downmix);
* C++ integer division (truncation toward zero) is Int.tdiv;
* std::string values are modelled as List Char (for ASCII data the C++
  byte order and the Char order coincide, and UTF-8 byte-lexicographic
  order agrees with codepoint-lexicographic order);
* fallible steps are Option-valued: none models every path on which the
  C++ code appends/returns nothing (including caught exceptions).
-/

set_option maxRecDepth 40000

namespace Esp32Radio

/-! ### Bounded chunk buffer

`DownloadAudioStream` pushes chunks of `bytes_read` bytes (1 ≤ bytes_read ≤ 4096,
the download chunk size) after waiting for `buffer_size_ < MAX_BUFFER_SIZE`;
`PlayAudioStream` pops the front chunk and subtracts its size; `ClearAudioBuffer`
frees every queued chunk and zeroes `buffer_size_`.  The queue is modelled by the
list of queued chunk sizes.  `MAX_BUFFER_SIZE` is declared in the class header
(not part of this translation unit), so the capacity is kept as a parameter
`cap`, exactly as the spec describes it ("a configured maximum capacity"). -/

/-- Download read-chunk size: `const size_t chunk_size = 4096` in
`DownloadAudioStream`; every pushed chunk holds between 1 and 4096 bytes. -/
def MAX_CHUNK : Nat := 4096

/-- One buffer operation: a downloader push of a chunk of `s` bytes, a decoder
pop of the front chunk, or `ClearAudioBuffer`. -/
inductive BufOp where
  | push (s : Nat)
  | pop
  | clear

/-- The shared buffer state: the sizes of the queued chunks (front first) and
the running byte total `buffer_size_`. -/
structure BufState where
  queue : List Nat
  size : Nat

/-- One step of the buffer.  A push happens exactly when the producer's wait
`buffer_cv_.wait(lock, buffer_size_ < MAX_BUFFER_SIZE || !is_downloading_)`
admitted it with the buffer below capacity (otherwise the chunk is freed and
nothing changes), and the pushed size is a download read result
(1 ≤ s ≤ 4096).  A pop takes the front chunk and subtracts its size; on an
empty queue the consumer just keeps waiting (no state change). -/
def stepBuf (cap : Nat) (st : BufState) : BufOp → BufState
  | .push s =>
      if st.size < cap ∧ 0 < s ∧ s ≤ MAX_CHUNK then
        { queue := st.queue ++ [s], size := st.size + s }
      else st
  | .pop =>
      match st.queue with
      | [] => st
      | c :: rest => { queue := rest, size := st.size - c }
  | .clear => { queue := [], size := 0 }

/-- Run a sequence of buffer operations from the empty initial buffer. -/
def bufRun (cap : Nat) (ops : List BufOp) : BufState :=
  ops.foldl (stepBuf cap) { queue := [], size := 0 }

/-- The invariant preserved by every buffer step: the byte total equals the sum
of the queued chunk sizes and stays below capacity plus one chunk. -/
def BufInv (cap : Nat) (st : BufState) : Prop :=
  st.size = st.queue.sum ∧ st.size ≤ cap + (MAX_CHUNK - 1)

theorem stepBuf_preserves_inv (cap : Nat) (st : BufState) (op : BufOp)
    (h : BufInv cap st) : BufInv cap (stepBuf cap st op) := by
  obtain ⟨hsum, hle⟩ := h
  cases op with
  | push s =>
      simp only [stepBuf]
      split
      · rename_i hc
        obtain ⟨hlt, _, hs⟩ := hc
        refine ⟨?_, ?_⟩
        · simp [hsum, List.sum_append]
        · simp only [MAX_CHUNK] at hs ⊢
          omega
      · exact ⟨hsum, hle⟩
  | pop =>
      cases hq : st.queue with
      | nil => simpa only [stepBuf, hq] using ⟨hsum, hle⟩
      | cons c rest =>
          rw [hq] at hsum
          simp only [List.sum_cons] at hsum
          refine ⟨?_, ?_⟩
          · simp [stepBuf, hq, hsum]
          · simp only [stepBuf, hq]
            omega
  | clear => exact ⟨rfl, Nat.zero_le _⟩

/-- C1 (amended): for every capacity and every sequence of pushes, pops and
clears, the running byte total `buffer_size_` always equals the sum of the
sizes of the queued chunks, and always lies within [0, capacity + 4095]: a push
is admitted whenever the total is below capacity and then adds up to 4096
bytes, so the total can exceed the capacity by at most `MAX_CHUNK - 1 = 4095`
bytes (it is a Nat, hence never below 0). -/
theorem c1_buffer_total_invariant (cap : Nat) (ops : List BufOp) :
    (bufRun cap ops).size = (bufRun cap ops).queue.sum ∧
    (bufRun cap ops).size ≤ cap + (MAX_CHUNK - 1) := by
  have h : BufInv cap (bufRun cap ops) := by
    unfold bufRun
    induction ops using List.reverseRecOn with
    | nil => exact ⟨rfl, Nat.zero_le _⟩
    | append_singleton l op ih =>
        rw [List.foldl_append, List.foldl_cons, List.foldl_nil]
        exact stepBuf_preserves_inv cap _ op ih
  exact h

/-- C1 counterexample: with capacity 4096, pushing a 1-byte chunk and then a
4096-byte chunk (both admitted, since the total is below capacity before each
push) leaves `buffer_size_ = 4097 > 4096`: the byte total does not stay within
[0, capacity]. -/
theorem c1_counterexample :
    (bufRun 4096 [BufOp.push 1, BufOp.push 4096]).size = 4097 ∧
    ¬ (bufRun 4096 [BufOp.push 1, BufOp.push 4096]).size ≤ 4096 := by
  constructor
  · rfl
  · decide

/-! ### ID3v2 tag skip

`Esp32Radio::SkipId3Tag(uint8_t* data, size_t size)`: the buffer is modelled as
the list of its byte values (each < 256 in reality; the `&&& 0x7F` masking makes
the definition total on Nat).  The null-pointer guard has no list counterpart. -/

/-- Translation of `SkipId3Tag`: returns the number of bytes to skip. -/
def SkipId3Tag (data : List Nat) : Nat :=
  if data.length < 10 then 0
  else if ¬ (data.take 3 = [0x49, 0x44, 0x33]) then 0
  else
    let tagSize : Nat :=
      (((data.getD 6 0 &&& 0x7F) <<< 21 |||
        (data.getD 7 0 &&& 0x7F) <<< 14) |||
        (data.getD 8 0 &&& 0x7F) <<< 7) |||
        (data.getD 9 0 &&& 0x7F)
    let totalSkip := 10 + tagSize
    if totalSkip > data.length then data.length else totalSkip

/-- The synchsafe 28-bit size as the spec describes it: 7 value bits per byte
(bit 7 of each byte ignored), most significant byte first. -/
def synchsafeSize (b6 b7 b8 b9 : Nat) : Nat :=
  (b6 % 128) * 2 ^ 21 + (b7 % 128) * 2 ^ 14 + (b8 % 128) * 2 ^ 7 + b9 % 128

theorem nat_and_127 (x : Nat) : x &&& 127 = x % 128 := by
  have h : (127 : Nat) = 2 ^ 7 - 1 := by norm_num
  rw [h, Nat.and_pow_two_sub_one_eq_mod]

theorem or_shift_eq_add {b : Nat} (i a : Nat) (hb : b < 2 ^ i) :
    (a <<< i) ||| b = a * 2 ^ i + b := by
  rw [Nat.shiftLeft_eq, Nat.mul_comm a (2 ^ i), ← Nat.mul_add_lt_is_or hb]

theorem mul_pow_or_eq_add {b : Nat} (i a : Nat) (hb : b < 2 ^ i) :
    a * 2 ^ i ||| b = a * 2 ^ i + b := by
  rw [Nat.mul_comm a (2 ^ i), ← Nat.mul_add_lt_is_or hb]

theorem skipId3Tag_tagSize (b6 b7 b8 b9 : Nat) :
    (((b6 &&& 0x7F) <<< 21 ||| (b7 &&& 0x7F) <<< 14) |||
        (b8 &&& 0x7F) <<< 7) ||| (b9 &&& 0x7F) =
      synchsafeSize b6 b7 b8 b9 := by
  have m7 : b7 % 128 < 128 := Nat.mod_lt _ (by norm_num)
  have m8 : b8 % 128 < 128 := Nat.mod_lt _ (by norm_num)
  have m9 : b9 % 128 < 128 := Nat.mod_lt _ (by norm_num)
  rw [show (0x7F : Nat) = 127 from rfl, nat_and_127 b6, nat_and_127 b7,
    nat_and_127 b8, nat_and_127 b9, Nat.shiftLeft_eq, Nat.shiftLeft_eq,
    Nat.shiftLeft_eq]
  have e1 : b6 % 128 * 2 ^ 21 ||| b7 % 128 * 2 ^ 14 =
      b6 % 128 * 2 ^ 21 + b7 % 128 * 2 ^ 14 :=
    mul_pow_or_eq_add 21 _ (by nlinarith)
  have f2 : b6 % 128 * 2 ^ 21 + b7 % 128 * 2 ^ 14 =
      (b6 % 128 * 2 ^ 7 + b7 % 128) * 2 ^ 14 := by ring
  have e2 : (b6 % 128 * 2 ^ 7 + b7 % 128) * 2 ^ 14 ||| b8 % 128 * 2 ^ 7 =
      (b6 % 128 * 2 ^ 7 + b7 % 128) * 2 ^ 14 + b8 % 128 * 2 ^ 7 :=
    mul_pow_or_eq_add 14 _ (by nlinarith)
  have f3 : (b6 % 128 * 2 ^ 7 + b7 % 128) * 2 ^ 14 + b8 % 128 * 2 ^ 7 =
      ((b6 % 128 * 2 ^ 7 + b7 % 128) * 2 ^ 7 + b8 % 128) * 2 ^ 7 := by ring
  have e3 : ((b6 % 128 * 2 ^ 7 + b7 % 128) * 2 ^ 7 + b8 % 128) * 2 ^ 7 |||
        b9 % 128 =
      ((b6 % 128 * 2 ^ 7 + b7 % 128) * 2 ^ 7 + b8 % 128) * 2 ^ 7 + b9 % 128 :=
    mul_pow_or_eq_add 7 _ m9
  rw [e1, f2, e2, f3, e3, synchsafeSize]
  ring

/-- C4: for every byte buffer of at least 10 bytes beginning with the marker
"ID3" (bytes 0x49 0x44 0x33), `SkipId3Tag` computes the tag size from bytes
6..9 as a synchsafe 28-bit integer (bit 7 of each byte ignored) and returns
`10 + tag_size`, clamped to the number of available bytes. -/
theorem c4_id3_skip (data : List Nat) (hlen : 10 ≤ data.length)
    (hmark : data.take 3 = [0x49, 0x44, 0x33]) :
    SkipId3Tag data =
      min (10 + synchsafeSize (data.getD 6 0) (data.getD 7 0)
            (data.getD 8 0) (data.getD 9 0))
        data.length := by
  unfold SkipId3Tag
  rw [if_neg (by omega), if_neg (by simp [hmark]), skipId3Tag_tagSize]
  show (if 10 + synchsafeSize (data.getD 6 0) (data.getD 7 0) (data.getD 8 0)
          (data.getD 9 0) > data.length then data.length
        else 10 + synchsafeSize (data.getD 6 0) (data.getD 7 0) (data.getD 8 0)
          (data.getD 9 0)) =
      min (10 + synchsafeSize (data.getD 6 0) (data.getD 7 0) (data.getD 8 0)
            (data.getD 9 0))
        data.length
  rw [Nat.min_def]
  split_ifs <;> omega

/-- C4 witness: the spec's example.  A 267-byte buffer beginning
"ID3", version/flag bytes, then synchsafe size bytes 0x00 0x00 0x02 0x01:
the tag size is 0x101 = 257 and the skip is 10 + 257 = 267 (not clamped,
as exactly 267 bytes are available). -/
theorem c4_id3_skip_witness :
    synchsafeSize 0 0 2 1 = 257 ∧
    SkipId3Tag ([0x49, 0x44, 0x33, 4, 0, 0, 0, 0, 2, 1] ++
        List.replicate 257 0) = 267 := by
  constructor
  · rfl
  · rw [c4_id3_skip ([0x49, 0x44, 0x33, 4, 0, 0, 0, 0, 2, 1] ++
        List.replicate 257 0) (by decide) (by decide)]
    decide

/-! ### Frame validity gate and frame duration (`PlayAudioStream`)

After a successful `MP3Decode`, the code reads the frame info and skips the
frame (`continue`) when `samprate == 0 || nChans == 0`; only then does it
compute `frame_duration_ms = (outputSamps * 1000) / (samprate * nChans)` and
accumulate it into `current_play_time_ms_`. -/

/-- The last-decoded-frame info fields used by the duration computation. -/
structure Mp3FrameInfo where
  samprate : Nat
  nChans : Nat
  outputSamps : Nat

/-- One post-decode step: given the frame info and the current play time,
returns the updated play time and the computed frame duration (`none` when the
frame was skipped by the zero-rate/zero-channel guard). -/
def frameStep (fi : Mp3FrameInfo) (playTimeMs : Int) : Int × Option Nat :=
  if fi.samprate = 0 ∨ fi.nChans = 0 then (playTimeMs, none)
  else
    let d := fi.outputSamps * 1000 / (fi.samprate * fi.nChans)
    (playTimeMs + d, some d)

/-- C9: every frame reporting a zero sample rate or zero channel count is
skipped before the frame-duration computation, and whenever the duration is
computed the divisor `samprate * nChans` is strictly positive (never a
division by zero), the duration is `outputSamps * 1000 / (samprate * nChans)`,
and it is accumulated into the play time. -/
theorem c9_no_div_by_zero (fi : Mp3FrameInfo) (t : Int) :
    ((fi.samprate = 0 ∨ fi.nChans = 0) → (frameStep fi t).2 = none) ∧
    (∀ d, (frameStep fi t).2 = some d →
      0 < fi.samprate * fi.nChans ∧
      d = fi.outputSamps * 1000 / (fi.samprate * fi.nChans) ∧
      (frameStep fi t).1 = t + d) := by
  constructor
  · intro h
    simp [frameStep, h]
  · intro d hd
    unfold frameStep at hd ⊢
    split at hd
    · exact absurd hd (by simp)
    · rename_i hz
      push_neg at hz
      simp only [Option.some.injEq] at hd
      refine ⟨Nat.mul_pos (Nat.pos_of_ne_zero hz.1) (Nat.pos_of_ne_zero hz.2),
        hd.symm, ?_⟩
      rw [if_neg (by push_neg; exact hz)]
      simp [hd]

/-- C9 witness: a typical 44.1 kHz stereo frame (1152 samples per channel,
outputSamps = 2304) is not skipped; its duration is
2304 * 1000 / (44100 * 2) = 26 ms and the play time advances by 26. -/
theorem c9_no_div_by_zero_witness :
    (frameStep ⟨44100, 2, 2304⟩ 100).2 = some 26 ∧
    0 < (44100 : Nat) * 2 ∧
    (frameStep ⟨44100, 2, 2304⟩ 100).1 = 100 + 26 := by
  have h := (c9_no_div_by_zero ⟨44100, 2, 2304⟩ 100).2 26 (by decide)
  exact ⟨by decide, h.1, h.2.2⟩

/-! ### Stereo-to-mono downmix (`PlayAudioStream`)

When `nChans == 2` the code averages interleaved left/right `int16_t` pairs
with C++ `int` arithmetic — `(int16_t)((left + right) / 2)` — producing
`outputSamps / 2` mono samples; when `nChans == 1` (or any other channel
count, which is only logged) the PCM data is passed through unchanged. -/

/-- The C++ cast to `int16_t` (two's-complement wraparound). -/
def toInt16 (x : Int) : Int := (x + 32768) % 65536 - 32768

/-- Translation of the downmix step: `pcm` is the decoded frame's sample list
(interleaved L/R when stereo), its length playing the role of `outputSamps`.
`Int.tdiv` is C++ `int` division (truncation toward zero). -/
def downmixFrame (nChans : Nat) (pcm : List Int) : List Int :=
  if nChans = 2 then
    (List.range (pcm.length / 2)).map
      (fun i => toInt16 (Int.tdiv (pcm.getD (2 * i) 0 + pcm.getD (2 * i + 1) 0) 2))
  else pcm

theorem toInt16_eq_self {y : Int} (h1 : -32768 ≤ y) (h2 : y ≤ 32767) :
    toInt16 y = y := by
  unfold toInt16
  omega

theorem tdiv_two_bounds {s : Int} (h1 : -65536 ≤ s) (h2 : s ≤ 65534) :
    -32768 ≤ Int.tdiv s 2 ∧ Int.tdiv s 2 ≤ 32767 := by
  rcases le_or_lt 0 s with hs | hs
  · rw [Int.tdiv_eq_ediv hs (by norm_num)]
    omega
  · have hneg : Int.tdiv s 2 = -Int.tdiv (-s) 2 := by
      rw [← Int.neg_tdiv, neg_neg]
    rw [hneg, Int.tdiv_eq_ediv (by omega) (by norm_num)]
    omega

/-- C5: on a stereo frame (channel count 2) the downmix produces
`outputSamps / 2` mono samples, each the truncating average `(L + R) / 2`
(C++ `int` division, truncation toward zero) of the interleaved left/right
pair — with no int16 wraparound, since the average of two int16 values always
fits in int16 — while channel count 1 and any other channel count pass the
samples through unchanged. -/
theorem c5_downmix (nChans : Nat) (pcm : List Int)
    (hrange : ∀ x ∈ pcm, -32768 ≤ x ∧ x ≤ 32767) :
    ((downmixFrame 2 pcm).length = pcm.length / 2 ∧
      ∀ i, i < pcm.length / 2 →
        (downmixFrame 2 pcm).getD i 0 =
          Int.tdiv (pcm.getD (2 * i) 0 + pcm.getD (2 * i + 1) 0) 2) ∧
    downmixFrame 1 pcm = pcm ∧
    (nChans ≠ 2 → downmixFrame nChans pcm = pcm) := by
  have hget : ∀ j, -32768 ≤ pcm.getD j 0 ∧ pcm.getD j 0 ≤ 32767 := by
    intro j
    by_cases hj : j < pcm.length
    · rw [pcm.getD_eq_getElem 0 hj]
      exact hrange _ (pcm.getElem_mem hj)
    · rw [List.getD_eq_default _ _ (by omega)]
      norm_num
  refine ⟨⟨by simp [downmixFrame], ?_⟩, by simp [downmixFrame], ?_⟩
  · intro i hi
    have hmap : (downmixFrame 2 pcm).getD i 0 =
        toInt16 (Int.tdiv (pcm.getD (2 * i) 0 + pcm.getD (2 * i + 1) 0) 2) := by
      unfold downmixFrame
      rw [if_pos rfl]
      rw [List.getD_eq_getElem _ _ (by simpa using hi)]
      simp
    rw [hmap]
    obtain ⟨la, lb⟩ := hget (2 * i)
    obtain ⟨ra, rb⟩ := hget (2 * i + 1)
    obtain ⟨da, db⟩ := tdiv_two_bounds (s := pcm.getD (2 * i) 0 + pcm.getD (2 * i + 1) 0)
      (by omega) (by omega)
    exact toInt16_eq_self da db
  · intro hne
    unfold downmixFrame
    rw [if_neg hne]

/-- C5 witness: interleaved stereo input [100, 200] downmixes to [150], and
[-100, -100] downmixes to [-100]; a mono frame passes through unchanged. -/
theorem c5_downmix_witness :
    (downmixFrame 2 [100, 200]).getD 0 0 = 150 ∧
    (downmixFrame 2 [-100, -100]).getD 0 0 = -100 ∧
    downmixFrame 1 [100, 200] = [100, 200] := by
  refine ⟨?_, ?_, ?_⟩
  · rw [(c5_downmix 2 [100, 200] (by decide)).1.2 0 (by decide)]
    decide
  · rw [(c5_downmix 2 [-100, -100] (by decide)).1.2 0 (by decide)]
    decide
  · exact (c5_downmix 1 [100, 200] (by decide)).2.1

/-! ### URL resolution (`Download`)

`audio_url` / `lyric_url` from the JSON response are resolved as follows:
`rfind("http://", 0) == 0 || rfind("https://", 0) == 0` keeps the URL
unchanged; otherwise (whether or not the path contains "radio_proxy.php" —
both branches concatenate) the API base is prepended.  Strings are modelled
as List Char. -/

/-- Substring containment, mirroring `std::string::find(pat) != npos`. -/
def listContainsSeg (pat : List Char) : List Char → Bool
  | [] => pat.isPrefixOf []
  | c :: rest => pat.isPrefixOf (c :: rest) || listContainsSeg pat rest

/-- Translation of the URL-resolution rule of `Esp32Radio::Download` (applied
to both `audio_url` and `lyric_url`). -/
def resolveUrl (base path : List Char) : List Char :=
  if ("http://".toList.isPrefixOf path || "https://".toList.isPrefixOf path) = true
  then path
  else if listContainsSeg ("radio_proxy.php".toList) path = true then base ++ path
  else base ++ path

/-- C6: an absolute URL (prefix "http://" or "https://") is returned
unchanged; a URL containing the proxy-path marker "radio_proxy.php", and any
other relative path, resolves to exactly the API base concatenated with the
path. -/
theorem c6_resolve_url (base path : List Char) :
    (("http://".toList.isPrefixOf path || "https://".toList.isPrefixOf path) = true →
      resolveUrl base path = path) ∧
    (("http://".toList.isPrefixOf path || "https://".toList.isPrefixOf path) = false →
      (listContainsSeg ("radio_proxy.php".toList) path = true →
        resolveUrl base path = base ++ path) ∧
      resolveUrl base path = base ++ path) := by
  constructor
  · intro h
    unfold resolveUrl
    rw [if_pos h]
  · intro h
    have hres : resolveUrl base path = base ++ path := by
      unfold resolveUrl
      rw [if_neg (fun hc => by rw [h] at hc; exact Bool.noConfusion hc)]
      split <;> rfl
    exact ⟨fun _ => hres, hres⟩

/-- C6 witness: the absolute URL is returned unchanged, and a relative path
containing the proxy marker resolves to base ++ path. -/
theorem c6_resolve_url_witness :
    resolveUrl ("https://ai.daongoc.vn/radio/".toList)
        ("http://cdn.example.com/a.mp3".toList) =
      "http://cdn.example.com/a.mp3".toList ∧
    resolveUrl ("https://ai.daongoc.vn/radio/".toList)
        ("radio_proxy.php?id=1".toList) =
      "https://ai.daongoc.vn/radio/radio_proxy.php?id=1".toList := by
  constructor
  · exact (c6_resolve_url ("https://ai.daongoc.vn/radio/".toList)
      ("http://cdn.example.com/a.mp3".toList)).1 (by decide)
  · rw [((c6_resolve_url ("https://ai.daongoc.vn/radio/".toList)
      ("radio_proxy.php?id=1".toList)).2 (by decide)).1 (by decide)]
    decide

/-! ### LRC lyric parsing (`ParseLyrics`)

`ParseLyrics` splits the body into lines (std::getline on '\n'), strips one
trailing '\r', skips empty and short lines, and for each line of the form
`[` tag `]` text with an all-digit part before the first ':' computes
`timestamp_ms = minutes * 60 * 1000 + (int)(seconds * 1000)` where
`minutes = std::stoi(left)` and `seconds = std::stof(right)` — `seconds` is a
single-precision (IEEE-754 binary32) float and the cast truncates toward
zero.  Finally `std::sort` sorts the `pair<int, std::string>` vector by its
lexicographic order (timestamp first, then byte-wise string comparison).

The float arithmetic is modelled bit-exactly: `rnB32 n d` is the binary32
value nearest to the non-negative rational n/d (round-to-nearest, ties to
even), represented as an exact rational pair (numerator, power-of-two
denominator).  `std::stof` is correctly rounded, and the float multiplication
by 1000 rounds its exact product — both are applications of `rnB32`.  (This
model was validated bit-for-bit against compiled C `strtof`/float arithmetic
over 13000+ inputs.  Subnormal/overflow boundary cases, hex/inf/nan/exponent
forms of `strtof`, and inputs whose value exceeds 2^128 are outside the
modelled range; the claims' inputs are tiny decimals.) -/

/-- Fuel-driven floor of log2 (fuel ≥ the bit length; `ilog2` passes n). -/
def log2go : Nat → Nat → Nat
  | 0, _ => 0
  | fuel + 1, n => if n ≤ 1 then 0 else log2go fuel (n / 2) + 1

/-- Floor of log2 of a positive Nat (0 for 0). -/
def ilog2 (n : Nat) : Nat := log2go n n

/-- Does 2^e ≤ n/d hold?  (Integer comparison on either side of zero.) -/
def le2pow (e : Int) (n d : Nat) : Bool :=
  if 0 ≤ e then decide (d * 2 ^ e.toNat ≤ n) else decide (d ≤ n * 2 ^ (-e).toNat)

/-- Round the non-negative rational n/d to the nearest IEEE-754 binary32
value (24-bit significand, round-to-nearest ties-to-even), returned as an
exact rational pair (numerator, denominator); the denominator is a power of
two.  Normal range only (the inputs of interest are decimal fractions of
seconds). -/
def rnB32 (n d : Nat) : Nat × Nat :=
  if n = 0 ∨ d = 0 then (0, 1)
  else
    let e0 : Int := (ilog2 n : Int) - (ilog2 d : Int)
    let e : Int := if le2pow e0 n d then e0 else e0 - 1
    let s : Int := 23 - e
    let N : Nat := if 0 ≤ s then n * 2 ^ s.toNat else n
    let D : Nat := if 0 ≤ s then d else d * 2 ^ (-s).toNat
    let m0 := N / D
    let r := N % D
    let m : Nat :=
      if 2 * r < D then m0
      else if D < 2 * r then m0 + 1
      else if m0 % 2 = 0 then m0 else m0 + 1
    if 23 ≤ e then (m * 2 ^ (e - 23).toNat, 1) else (m, 2 ^ (23 - e).toNat)

/-- The value of an all-digit string, as computed by std::stoi/std::stof on
its digits. -/
def digitsToNat (l : List Char) : Nat :=
  l.foldl (fun a c => a * 10 + (c.toNat - 48)) 0

/-- The C whitespace class skipped by strtof. -/
def isSpaceChar (c : Char) : Bool :=
  c = ' ' || c = '\t' || c = '\n' || c = '\r' || c = '\x0B' || c = '\x0C'

/-- Model of `std::stof` on the decimal forms that occur in LRC tags:
optional whitespace, optional sign, digits, optional '.' and fraction digits,
anything else ignored from there on.  Returns the sign and the exact decimal
value as numerator/denominator (the correctly-rounded binary32 conversion is
applied in `secondsToMsTrunc`); `none` models std::invalid_argument (caught
by `ParseLyrics`, which then skips the line). -/
def stof32 (s : List Char) : Option (Bool × Nat × Nat) :=
  let s1 := s.dropWhile isSpaceChar
  let neg : Bool := s1.head? == some '-'
  let s2 := if s1.head? == some '-' || s1.head? == some '+' then s1.tail else s1
  let d1 := s2.takeWhile Char.isDigit
  let s3 := s2.dropWhile Char.isDigit
  let d2 : List Char :=
    if s3.head? == some '.' then s3.tail.takeWhile Char.isDigit else []
  if d1.isEmpty ∧ d2.isEmpty then none
  else some (neg, digitsToNat (d1 ++ d2), 10 ^ d2.length)

/-- `(int)(seconds * 1000)` where `seconds` is the binary32 value of the
decimal ±n/d: round n/d to binary32 (std::stof is correctly rounded),
multiply by 1000.0f in binary32, truncate toward zero. -/
def secondsToMsTrunc (neg : Bool) (n d : Nat) : Int :=
  let f := rnB32 n d
  let p := rnB32 (f.1 * 1000) f.2
  let t : Nat := p.1 / p.2
  if neg then -(t : Int) else (t : Int)

/-- Split at the first occurrence of `c`: `some (before, after)` with the
occurrence removed, `none` when `c` does not occur (std::string::find ==
npos). -/
def splitFirst (c : Char) : List Char → Option (List Char × List Char)
  | [] => none
  | a :: rest =>
      if a = c then some ([], rest)
      else
        match splitFirst c rest with
        | none => none
        | some (l, r) => some (a :: l, r)

/-- Remove one trailing '\r' (the `!line.empty() && line.back() == '\r'`
pop_back in ParseLyrics). -/
def stripCR (l : List Char) : List Char :=
  if l.getLast? = some '\r' then l.dropLast else l

/-- Maximum int value: std::stoi raises std::out_of_range above this. -/
def INT_MAX_NAT : Nat := 2147483647

/-- The tag-processing block of the per-line loop: split `tag_or_time` at the
first ':', require an all-digit (and non-empty, in-range — std::stoi raises
otherwise) left part, convert the right part with std::stof, and build
`timestamp_ms = minutes * 60 * 1000 + (int)(seconds * 1000)`. -/
def parseTag (tag content : List Char) : Option (Int × List Char) :=
  match splitFirst ':' tag with
  | none => none
  | some (left, right) =>
      if left.all Char.isDigit then
        if left.isEmpty then none
        else if INT_MAX_NAT < digitsToNat left then none
        else
          match stof32 right with
          | none => none
          | some (neg, n, d) =>
              if d * 2 ^ 128 ≤ n then none
              else
                some ((digitsToNat left : Int) * 60000 +
                  secondsToMsTrunc neg n d, content)
      else none

/-- Translation of the per-line step of `ParseLyrics`: `none` whenever the
C++ loop appends nothing for the line (empty/short line, no '[' at position
0, no ']', no ':' in the tag, non-digit before the ':', or a caught
std::stoi/std::stof exception); otherwise the parsed (timestamp_ms, text)
pair. -/
def parseLyricLine (line0 : List Char) : Option (Int × List Char) :=
  let line := stripCR line0
  if line.length ≤ 10 then none
  else if line.head? ≠ some '[' then none
  else
    match splitFirst ']' line with
    | none => none
    | some (pre, content) => parseTag (pre.drop 1) content

/-- Line splitting as done by `std::getline(stream, line)` on '\n': the text
after the last '\n' is a line when non-empty; a trailing '\n' produces no
extra empty line.  Fuel-driven (the fuel `l.length` always suffices). -/
def getlineGo : Nat → List Char → List (List Char)
  | 0, l => if l.isEmpty then [] else [l]
  | fuel + 1, l =>
      match splitFirst '\n' l with
      | none => if l.isEmpty then [] else [l]
      | some (first, rest) => first :: getlineGo fuel rest

/-- All lines of the lyric body. -/
def splitLines (content : List Char) : List (List Char) :=
  getlineGo content.length content

/-- Byte-wise ≤ on strings, as used by std::string's operator< inside
std::pair's lexicographic operator< (memcmp order; for UTF-8 data the
byte-lexicographic and codepoint-lexicographic orders agree). -/
def strLeb : List Char → List Char → Bool
  | [], _ => true
  | _ :: _, [] => false
  | a :: as, b :: bs =>
      if a.toNat < b.toNat then true
      else if b.toNat < a.toNat then false
      else strLeb as bs

/-- The (non-strict) lexicographic order on `pair<int, std::string>` used by
`std::sort(lyrics_.begin(), lyrics_.end())`: timestamp first, then text. -/
def pairLe (p q : Int × List Char) : Prop :=
  p.1 < q.1 ∨ (p.1 = q.1 ∧ strLeb p.2 q.2 = true)

instance : DecidableRel pairLe := fun p q => by
  unfold pairLe
  exact inferInstance

/-- Translation of `ParseLyrics`: parse each line, then sort.  `std::sort`
with `pair`'s operator< is modelled by insertion sort under `pairLe`: the
order is total, transitive and antisymmetric, so the sorted permutation is
unique (`parseLyrics_sort_canonical` below) and any correct std::sort
implementation returns exactly this list. -/
def ParseLyrics (content : List Char) : List (Int × List Char) :=
  List.insertionSort pairLe ((splitLines content).filterMap parseLyricLine)

theorem strLeb_total (a b : List Char) : strLeb a b = true ∨ strLeb b a = true := by
  induction a generalizing b with
  | nil => exact Or.inl rfl
  | cons x xs ih =>
      cases b with
      | nil => exact Or.inr rfl
      | cons y ys =>
          rcases Nat.lt_trichotomy x.toNat y.toNat with h | h | h
          · left
            simp [strLeb, h]
          · rcases ih ys with h2 | h2
            · left
              simp [strLeb, h, h2]
            · right
              simp [strLeb, h.symm, h2]
          · right
            simp [strLeb, h]

theorem strLeb_trans {a b c : List Char} (h1 : strLeb a b = true)
    (h2 : strLeb b c = true) : strLeb a c = true := by
  induction a generalizing b c with
  | nil => rfl
  | cons x xs ih =>
      cases b with
      | nil => simp [strLeb] at h1
      | cons y ys =>
          cases c with
          | nil => simp [strLeb] at h2
          | cons z zs =>
              simp only [strLeb] at h1 h2 ⊢
              split_ifs at h1 h2 ⊢ <;> try rfl
              all_goals try omega
              · exact ih h1 h2

theorem char_toNat_inj {a b : Char} (h : a.toNat = b.toNat) : a = b := by
  apply Char.ext
  exact UInt32.toNat.inj h

theorem strLeb_antisymm {a b : List Char} (h1 : strLeb a b = true)
    (h2 : strLeb b a = true) : a = b := by
  induction a generalizing b with
  | nil =>
      cases b with
      | nil => rfl
      | cons y ys => simp [strLeb] at h2
  | cons x xs ih =>
      cases b with
      | nil => simp [strLeb] at h1
      | cons y ys =>
          simp only [strLeb] at h1 h2
          by_cases hxy : x.toNat < y.toNat
          · rw [if_neg (by omega), if_pos hxy] at h2
            exact absurd h2 (by simp)
          · by_cases hyx : y.toNat < x.toNat
            · rw [if_neg hxy, if_pos hyx] at h1
              exact absurd h1 (by simp)
            · rw [if_neg hxy, if_neg hyx] at h1
              rw [if_neg hyx, if_neg hxy] at h2
              have hx : x = y := char_toNat_inj (by omega)
              rw [hx, ih h1 h2]

instance : IsTotal (Int × List Char) pairLe :=
  ⟨fun p q => by
    rcases Int.lt_trichotomy p.1 q.1 with h | h | h
    · exact Or.inl (Or.inl h)
    · rcases strLeb_total p.2 q.2 with h2 | h2
      · exact Or.inl (Or.inr ⟨h, h2⟩)
      · exact Or.inr (Or.inr ⟨h.symm, h2⟩)
    · exact Or.inr (Or.inl h)⟩

instance : IsTrans (Int × List Char) pairLe :=
  ⟨fun p q r h1 h2 => by
    rcases h1 with h1 | ⟨e1, s1⟩
    · rcases h2 with h2 | ⟨e2, s2⟩
      · exact Or.inl (lt_trans h1 h2)
      · exact Or.inl (e2 ▸ h1)
    · rcases h2 with h2 | ⟨e2, s2⟩
      · exact Or.inl (e1 ▸ h2)
      · exact Or.inr ⟨e1.trans e2, strLeb_trans s1 s2⟩⟩

instance : IsAntisymm (Int × List Char) pairLe :=
  ⟨fun p q h1 h2 => by
    rcases h1 with h1 | ⟨e1, s1⟩ <;> rcases h2 with h2 | ⟨e2, s2⟩
    · omega
    · omega
    · omega
    · exact Prod.ext e1 (strLeb_antisymm s1 s2)⟩

/-- The parsed-and-sorted lyric list is sorted under the full pair order
(timestamp, then byte-wise text). -/
theorem parseLyrics_sorted_pairLe (content : List Char) :
    (ParseLyrics content).Sorted pairLe :=
  List.sorted_insertionSort pairLe _

/-- Justification that modelling `std::sort` by insertion sort is canonical:
`pairLe` is total, transitive and antisymmetric, so every `pairLe`-sorted
permutation of the parsed lines — in particular the output of any conforming
`std::sort` implementation — is equal to `ParseLyrics content`. -/
theorem parseLyrics_sort_canonical (content : List Char)
    (l : List (Int × List Char))
    (hp : l.Perm ((splitLines content).filterMap parseLyricLine))
    (hs : l.Sorted pairLe) : l = ParseLyrics content :=
  List.eq_of_perm_of_sorted
    (hp.trans (List.perm_insertionSort pairLe _).symm) hs
    (List.sorted_insertionSort pairLe _)

theorem isDigit_toNat {c : Char} (h : c.isDigit = true) :
    48 ≤ c.toNat ∧ c.toNat ≤ 57 := by
  simp only [Char.isDigit, Bool.and_eq_true, decide_eq_true_eq, ge_iff_le] at h
  obtain ⟨h1, h2⟩ := h
  exact ⟨UInt32.le_toNat_of_le (by norm_num) h1,
    UInt32.toNat_le_of_le (by norm_num) h2⟩

theorem isDigit_ne {c d : Char} (hc : c.isDigit = true) (hd : d.isDigit = false) :
    c ≠ d := by
  intro h
  subst h
  rw [hc] at hd
  exact Bool.noConfusion hd

theorem digit_not_space {c : Char} (hc : c.isDigit = true) :
    isSpaceChar c = false := by
  have h1 := isDigit_ne hc (show (' ').isDigit = false by decide)
  have h2 := isDigit_ne hc (show ('\t').isDigit = false by decide)
  have h3 := isDigit_ne hc (show ('\n').isDigit = false by decide)
  have h4 := isDigit_ne hc (show ('\r').isDigit = false by decide)
  have h5 := isDigit_ne hc (show ('\x0B').isDigit = false by decide)
  have h6 := isDigit_ne hc (show ('\x0C').isDigit = false by decide)
  simp [isSpaceChar, h1, h2, h3, h4, h5, h6]

theorem splitFirst_append (c : Char) (l r : List Char) (hl : c ∉ l) :
    splitFirst c (l ++ c :: r) = some (l, r) := by
  induction l with
  | nil => simp [splitFirst]
  | cons a as ih =>
      have ha : a ≠ c := fun h => hl (h ▸ List.mem_cons_self a as)
      simp only [List.cons_append, splitFirst, List.append_eq]
      rw [if_neg ha, ih (fun hm => hl (List.mem_cons_of_mem a hm))]

theorem stripCR_bracket (pre text : List Char) :
    stripCR (pre ++ ']' :: text) = pre ++ ']' :: stripCR text := by
  unfold stripCR
  rw [List.getLast?_append_cons]
  cases text with
  | nil => simp
  | cons t ts =>
      rw [List.getLast?_cons_cons]
      by_cases h : (t :: ts).getLast? = some '\r'
      · rw [if_pos h, if_pos h, List.dropLast_append_cons, List.dropLast_cons₂]
      · rw [if_neg h, if_neg h]

theorem stripCR_length_le (l : List Char) : (stripCR l).length ≤ l.length := by
  unfold stripCR
  split
  · rw [List.length_dropLast]
    omega
  · exact le_refl _

theorem digitsToNat_from (b : List Char) :
    ∀ i : Nat, b.foldl (fun a c => a * 10 + (c.toNat - 48)) i =
      i * 10 ^ b.length + digitsToNat b := by
  induction b with
  | nil => intro i; simp [digitsToNat]
  | cons c bs ih =>
      intro i
      show bs.foldl _ (i * 10 + (c.toNat - 48)) = _
      rw [ih (i * 10 + (c.toNat - 48))]
      have hd : digitsToNat (c :: bs) =
          (c.toNat - 48) * 10 ^ bs.length + digitsToNat bs := by
        show bs.foldl _ (0 * 10 + (c.toNat - 48)) = _
        rw [ih (0 * 10 + (c.toNat - 48))]
        ring_nf
      rw [hd]
      simp [List.length_cons]
      ring

theorem digitsToNat_append (a b : List Char) :
    digitsToNat (a ++ b) = digitsToNat a * 10 ^ b.length + digitsToNat b := by
  unfold digitsToNat
  rw [List.foldl_append, digitsToNat_from]
  rfl

theorem digitsToNat_lt (l : List Char) (h : ∀ c ∈ l, c.isDigit = true) :
    digitsToNat l < 10 ^ l.length := by
  induction l with
  | nil => simp [digitsToNat]
  | cons c cs ih =>
      have hv : c.toNat - 48 ≤ 9 := by
        have := isDigit_toNat (h c (List.mem_cons_self c cs))
        omega
      have hcs := ih (fun d hd => h d (List.mem_cons_of_mem c hd))
      have hd : digitsToNat (c :: cs) =
          (c.toNat - 48) * 10 ^ cs.length + digitsToNat cs := by
        show cs.foldl _ (0 * 10 + (c.toNat - 48)) = _
        rw [digitsToNat_from cs (0 * 10 + (c.toNat - 48))]
        ring_nf
      rw [hd, List.length_cons]
      have : (c.toNat - 48) * 10 ^ cs.length ≤ 9 * 10 ^ cs.length :=
        Nat.mul_le_mul_right _ hv
      calc (c.toNat - 48) * 10 ^ cs.length + digitsToNat cs
      _ < (c.toNat - 48) * 10 ^ cs.length + 10 ^ cs.length := by omega
      _ ≤ 9 * 10 ^ cs.length + 10 ^ cs.length := by omega
      _ = 10 ^ (cs.length + 1) := by ring

/-- C10: every input line of 10 or fewer characters is discarded by the
`line.length() > 10` guard: no (timestamp, text) pair is appended for it,
even a well-formed timestamped lyric line. -/
theorem c10_short_lines_discarded (line : List Char) (h : line.length ≤ 10) :
    parseLyricLine line = none := by
  simp only [parseLyricLine]
  rw [if_pos (le_trans (stripCR_length_le line) h)]

/-- C10 witness: the well-formed timestamped lyric line "[0:1.0]Hi"
(9 characters) parses to nothing. -/
theorem c10_short_lines_discarded_witness :
    parseLyricLine ("[0:1.0]Hi".toList) = none :=
  c10_short_lines_discarded ("[0:1.0]Hi".toList) (by decide)

/-- C7 (amended): the final `std::sort` orders the parsed lines by the full
lexicographic order on `pair<int, std::string>` — ascending timestamp, ties
broken by byte-wise text comparison, not by insertion order.  Concretely, the
input lines `[00:01.00]b` then `[00:01.00]a` (equal timestamps, insertion
order b before a) come out as a before b. -/
theorem c7_sort_ties_by_text :
    (∀ content, (ParseLyrics content).Sorted pairLe) ∧
    ParseLyrics ("[00:01.00]b\n[00:01.00]a".toList) =
      [(1000, "a".toList), (1000, "b".toList)] :=
  ⟨parseLyrics_sorted_pairLe, by decide⟩

/-- C7 counterexample: for the input whose lines are, in insertion order,
`[00:01.00]b` then `[00:01.00]a` (duplicate timestamp 1000), the parsed
collection is [(1000, "a"), (1000, "b")] — not the insertion order
[(1000, "b"), (1000, "a")] the claim requires. -/
theorem c7_counterexample :
    ParseLyrics ("[00:01.00]b\n[00:01.00]a".toList) =
      [(1000, "a".toList), (1000, "b".toList)] ∧
    ParseLyrics ("[00:01.00]b\n[00:01.00]a".toList) ≠
      [(1000, "b".toList), (1000, "a".toList)] := by
  constructor
  · decide
  · decide

theorem stof32_decimal (sI sF : List Char) (hsI : ∀ c ∈ sI, c.isDigit = true)
    (hsIne : sI ≠ []) (hsF : ∀ c ∈ sF, c.isDigit = true) :
    stof32 (sI ++ '.' :: sF) =
      some (false, digitsToNat (sI ++ sF), 10 ^ sF.length) := by
  cases sI with
  | nil => exact absurd rfl hsIne
  | cons c0 cs =>
      have hc0 : c0.isDigit = true := hsI c0 (List.mem_cons_self c0 cs)
      have hcs : ∀ c ∈ cs, c.isDigit = true :=
        fun c hc => hsI c (List.mem_cons_of_mem c0 hc)
      have hminus : c0 ≠ '-' := isDigit_ne hc0 (by decide)
      have hplus : c0 ≠ '+' := isDigit_ne hc0 (by decide)
      have h1 : (c0 :: (cs ++ '.' :: sF)).dropWhile isSpaceChar =
          c0 :: (cs ++ '.' :: sF) :=
        List.dropWhile_cons_of_neg (by simp [digit_not_space hc0])
      have h4 : (c0 :: (cs ++ '.' :: sF)).takeWhile Char.isDigit = c0 :: cs := by
        rw [← List.cons_append,
          List.takeWhile_append_of_pos (by
            intro a ha
            rcases List.mem_cons.mp ha with h | h
            · rw [h]; exact hc0
            · exact hcs a h),
          List.takeWhile_cons_of_neg (by decide), List.append_nil]
      have h5 : (c0 :: (cs ++ '.' :: sF)).dropWhile Char.isDigit = '.' :: sF := by
        rw [← List.cons_append,
          List.dropWhile_append_of_pos (by
            intro a ha
            rcases List.mem_cons.mp ha with h | h
            · rw [h]; exact hc0
            · exact hcs a h),
          List.dropWhile_cons_of_neg (by decide)]
      have h6 : sF.takeWhile Char.isDigit = sF := List.takeWhile_eq_self_iff.mpr hsF
      simp only [stof32, List.cons_append, h1, List.head?_cons, h4, h5, h6]
      simp [hminus, hplus, hc0, h4, h5, h6]

theorem parseTag_metadata (tag content left right : List Char)
    (hsplit : splitFirst ':' tag = some (left, right))
    (c : Char) (hc : c ∈ left) (hcd : c.isDigit = false) :
    parseTag tag content = none := by
  unfold parseTag
  have hall : left.all Char.isDigit = false := by
    cases hb : left.all Char.isDigit
    · rfl
    · rw [List.all_eq_true] at hb
      rw [hb c hc] at hcd
      exact Bool.noConfusion hcd
  simp only [hsplit, hall, Bool.false_eq_true, if_false, ite_false]

theorem parseTag_numeric (mins sI sF content : List Char)
    (hm : ∀ c ∈ mins, c.isDigit = true) (hmne : mins ≠ [])
    (hsI : ∀ c ∈ sI, c.isDigit = true) (hsIne : sI ≠ [])
    (hsF : ∀ c ∈ sF, c.isDigit = true)
    (hmv : digitsToNat mins ≤ 34000) (hsv : digitsToNat sI ≤ 60000) :
    parseTag (mins ++ ':' :: (sI ++ '.' :: sF)) content =
      some ((digitsToNat mins : Int) * 60000 +
        secondsToMsTrunc false (digitsToNat (sI ++ sF)) (10 ^ sF.length),
        content) := by
  unfold parseTag
  have hnc : (':' : Char) ∉ mins :=
    fun hmem => absurd (hm _ hmem) (by decide)
  rw [splitFirst_append ':' mins (sI ++ '.' :: sF) hnc]
  have hall : mins.all Char.isDigit = true := List.all_eq_true.mpr hm
  have hne : mins.isEmpty = false := by
    cases mins with
    | nil => exact absurd rfl hmne
    | cons a as => rfl
  have hmax : ¬ (INT_MAX_NAT < digitsToNat mins) := by
    unfold INT_MAX_NAT
    omega
  have hguard : ¬ (10 ^ sF.length * 2 ^ 128 ≤ digitsToNat (sI ++ sF)) := by
    have hFlt := digitsToNat_lt sF hsF
    have happ := digitsToNat_append sI sF
    have hIle : digitsToNat sI * 10 ^ sF.length ≤ 60000 * 10 ^ sF.length :=
      Nat.mul_le_mul_right _ hsv
    have hpos : 0 < 10 ^ sF.length := Nat.pos_pow_of_pos _ (by norm_num)
    omega
  simp only [stof32_decimal sI sF hsI hsIne hsF, hall, hne,
    Bool.false_eq_true, if_false, ite_false, if_true, ite_true,
    eq_self_iff_true]
  rw [if_neg hmax, if_neg hguard]

theorem parseLyricLine_metadata (tag text left right : List Char)
    (hnb : (']' : Char) ∉ tag)
    (hsplit : splitFirst ':' tag = some (left, right))
    (c : Char) (hc : c ∈ left) (hcd : c.isDigit = false) :
    parseLyricLine ('[' :: tag ++ ']' :: text) = none := by
  simp only [parseLyricLine]
  rw [stripCR_bracket]
  by_cases hlen : (('[' :: tag) ++ ']' :: stripCR text).length ≤ 10
  · rw [if_pos hlen]
  · rw [if_neg hlen]
    rw [if_neg (not_not_intro
      (show (('[' :: tag) ++ ']' :: stripCR text).head? = some '[' from rfl))]
    rw [splitFirst_append ']' ('[' :: tag) (stripCR text) (by
      intro hmem
      rcases List.mem_cons.mp hmem with h | h
      · exact absurd h (by decide)
      · exact hnb h)]
    exact parseTag_metadata tag (stripCR text) left right hsplit c hc hcd

theorem parseLyricLine_numeric (mins sI sF text : List Char)
    (hm : ∀ c ∈ mins, c.isDigit = true) (hmne : mins ≠ [])
    (hsI : ∀ c ∈ sI, c.isDigit = true) (hsIne : sI ≠ [])
    (hsF : ∀ c ∈ sF, c.isDigit = true)
    (hmv : digitsToNat mins ≤ 34000) (hsv : digitsToNat sI ≤ 60000)
    (hlen : 10 < 4 + mins.length + sI.length + sF.length +
      (stripCR text).length) :
    parseLyricLine ('[' :: mins ++ ':' :: sI ++ '.' :: sF ++ ']' :: text) =
      some ((digitsToNat mins : Int) * 60000 +
        secondsToMsTrunc false (digitsToNat (sI ++ sF)) (10 ^ sF.length),
        stripCR text) := by
  have hshape : ('[' :: mins) ++ (':' :: sI) ++ ('.' :: sF) ++ (']' :: text) =
      ('[' :: (mins ++ ':' :: (sI ++ '.' :: sF))) ++ ']' :: text := by
    simp
  rw [hshape]
  simp only [parseLyricLine]
  rw [stripCR_bracket]
  have hlen2 : ¬ (('[' :: (mins ++ ':' :: (sI ++ '.' :: sF))) ++
      ']' :: stripCR text).length ≤ 10 := by
    simp only [List.length_append, List.length_cons]
    omega
  have hnb : (']' : Char) ∉ '[' :: (mins ++ ':' :: (sI ++ '.' :: sF)) := by
    intro hmem
    simp only [List.mem_cons, List.mem_append] at hmem
    rcases hmem with h | h | h | h | h | h
    · exact absurd h (by decide)
    · exact absurd (hm _ h) (by decide)
    · exact absurd h (by decide)
    · exact absurd (hsI _ h) (by decide)
    · exact absurd h (by decide)
    · exact absurd (hsF _ h) (by decide)
  rw [if_neg hlen2]
  rw [if_neg (not_not_intro
    (show (('[' :: (mins ++ ':' :: (sI ++ '.' :: sF))) ++
      ']' :: stripCR text).head? = some '[' from rfl))]
  rw [splitFirst_append ']' _ (stripCR text) hnb]
  exact parseTag_numeric mins sI sF (stripCR text) hm hmne hsI hsIne hsF hmv hsv

/-- C2 (amended): the lyric parser maps `[01:02.50]Hello` to
(62500, "Hello"); it discards any line whose bracket tag has a non-numeric
part before ':' (e.g. `[ar:Someone]`); after parsing, the collection is
sorted ascending by timestamp regardless of input order; and in general a
well-formed numeric line `[M:S.F]text` yields
`timestamp_ms = minutes * 60000 + (int)(seconds * 1000)` — the seconds
contribution is the single-precision float value of S.F multiplied by
1000.0f and TRUNCATED toward zero (not `round(seconds * 1000)`, which the
code never computes; see the counterexample).  The numeric-line clause
carries bounds (minutes ≤ 34000, integer seconds ≤ 60000, line longer than
10 chars) under which the C++ int arithmetic cannot overflow. -/
theorem c2_parse_lyrics_amended :
    ParseLyrics ("[01:02.50]Hello".toList) = [(62500, "Hello".toList)] ∧
    ParseLyrics ("[ar:Someone]".toList) = [] ∧
    (∀ content, (ParseLyrics content).Sorted (fun p q => p.1 ≤ q.1)) ∧
    (∀ tag text left right c, (']' : Char) ∉ tag →
      splitFirst ':' tag = some (left, right) → c ∈ left →
      c.isDigit = false →
      parseLyricLine ('[' :: tag ++ ']' :: text) = none) ∧
    (∀ mins sI sF text, (∀ c ∈ mins, c.isDigit = true) → mins ≠ [] →
      (∀ c ∈ sI, c.isDigit = true) → sI ≠ [] →
      (∀ c ∈ sF, c.isDigit = true) →
      digitsToNat mins ≤ 34000 → digitsToNat sI ≤ 60000 →
      10 < 4 + mins.length + sI.length + sF.length + (stripCR text).length →
      parseLyricLine ('[' :: mins ++ ':' :: sI ++ '.' :: sF ++ ']' :: text) =
        some ((digitsToNat mins : Int) * 60000 +
          secondsToMsTrunc false (digitsToNat (sI ++ sF)) (10 ^ sF.length),
          stripCR text)) := by
  refine ⟨by decide, by decide, ?_, ?_, ?_⟩
  · intro content
    refine (parseLyrics_sorted_pairLe content).imp ?_
    intro a b h
    rcases h with h | ⟨h, _⟩
    · exact le_of_lt h
    · exact le_of_eq h
  · intro tag text left right c hnb hsplit hc hcd
    exact parseLyricLine_metadata tag text left right hnb hsplit c hc hcd
  · intro mins sI sF text hm hmne hsI hsIne hsF hmv hsv hlen
    exact parseLyricLine_numeric mins sI sF text hm hmne hsI hsIne hsF
      hmv hsv hlen

/-- C2 witness: the numeric clause applied to `[01:02.50]Hello` yields
exactly (62500, "Hello"), and the metadata clause applied to `[ar:Someone]`
discards the line. -/
theorem c2_parse_lyrics_amended_witness :
    parseLyricLine
        ('[' :: "01".toList ++ ':' :: "02".toList ++ '.' :: "50".toList ++
          ']' :: "Hello".toList) =
      some ((62500 : Int), "Hello".toList) ∧
    parseLyricLine ('[' :: "ar:Someone".toList ++ ']' :: []) = none := by
  constructor
  · have h := c2_parse_lyrics_amended.2.2.2.2 ("01".toList) ("02".toList)
      ("50".toList) ("Hello".toList) (by decide) (by decide) (by decide)
      (by decide) (by decide) (by decide) (by decide) (by decide)
    rw [h]
    decide
  · exact c2_parse_lyrics_amended.2.2.2.1 ("ar:Someone".toList) []
      ("ar".toList) ("Someone".toList) 'a' (by decide) (by decide)
      (by decide) (by decide)

/-- Modelled from the spec's formula `round(seconds * 1000)`: the exact
decimal value n/d of the seconds field, times 1000, rounded to the nearest
integer (half away from zero; the counterexample value 0.6 is not a tie, so
every tie convention agrees). -/
def specRoundMs (n d : Nat) : Nat := (2 * (n * 1000) + d) / (2 * d)

/-- C2 counterexample: for the line `[00:00.0006]X` (minutes 0, seconds
0.0006) the code computes timestamp 0 — the float product 0.0006f * 1000.0f
≈ 0.60000002 is truncated toward zero — whereas the claim's formula
`minutes*60000 + round(seconds*1000)` gives round(0.6) = 1. -/
theorem c2_counterexample :
    parseLyricLine ("[00:00.0006]X".toList) = some (0, "X".toList) ∧
    specRoundMs 6 (10 ^ 4) = 1 ∧
    ((0 : Int) ≠ (0 : Int) * 60000 + (specRoundMs 6 (10 ^ 4) : Int)) := by
  refine ⟨by decide, by decide, by decide⟩

/-! ### Lyric matching (`UpdateLyricDisplay`)

Given the current play time, the code scans forward from
`start_index = max(current_lyric_index_, 0)` and keeps the last index whose
timestamp is ≤ the current time, breaking at the first timestamp beyond it;
-1 ("none") blanks the display.  The early return on an empty lyric list
leaves the index unchanged. -/

/-- The forward scan: starting at list position `i`, keep the last index
whose timestamp ≤ `t`; stop at the first timestamp beyond `t`. -/
def scanFrom (t : Int) : List (Int × List Char) → Nat → Int → Int
  | [], _, acc => acc
  | (ts, _) :: rest, i, acc =>
      if ts ≤ t then scanFrom t rest (i + 1) (i : Int) else acc

/-- Translation of `UpdateLyricDisplay`'s index update. -/
def updateLyricIndex (lyrics : List (Int × List Char)) (cur t : Int) : Int :=
  if lyrics.isEmpty then cur
  else
    let start : Nat := if 0 ≤ cur then cur.toNat else 0
    scanFrom t (lyrics.drop start) start (-1)

/-- The text pushed to the display for an index: the line's text for a valid
index, blank otherwise. -/
def lyricDisplayText (lyrics : List (Int × List Char)) (idx : Int) :
    List Char :=
  if 0 ≤ idx ∧ idx.toNat < lyrics.length then
    (lyrics.getD idx.toNat (0, [])).2
  else []

/-- The last index (in list order) whose timestamp is ≤ t, else -1: a plain
full scan from index 0 — this is the spec's "last line whose timestamp ≤
current time". -/
def lastLEGo (t : Int) : List (Int × List Char) → Nat → Int → Int
  | [], _, acc => acc
  | (ts, _) :: rest, i, acc =>
      lastLEGo t rest (i + 1) (if ts ≤ t then (i : Int) else acc)

def lastIndexLE (t : Int) (lyrics : List (Int × List Char)) : Int :=
  lastLEGo t lyrics 0 (-1)

theorem lastLEGo_none (t : Int) (l : List (Int × List Char))
    (h : ∀ p ∈ l, t < p.1) : ∀ i acc, lastLEGo t l i acc = acc := by
  induction l with
  | nil => intro i acc; rfl
  | cons p rest ih =>
      intro i acc
      obtain ⟨ts, x⟩ := p
      have hts : t < ts := h (ts, x) (List.mem_cons_self _ _)
      show lastLEGo t rest (i + 1) (if ts ≤ t then (i : Int) else acc) = acc
      rw [if_neg (by omega)]
      exact ih (fun q hq => h q (List.mem_cons_of_mem _ hq)) (i + 1) acc

theorem scanFrom_eq_lastLEGo (t : Int) (l : List (Int × List Char))
    (hsort : l.Sorted (fun p q => p.1 ≤ q.1)) :
    ∀ i acc, scanFrom t l i acc = lastLEGo t l i acc := by
  induction l with
  | nil => intro i acc; rfl
  | cons p rest ih =>
      intro i acc
      obtain ⟨ts, x⟩ := p
      obtain ⟨hhead, htail⟩ := List.sorted_cons.mp hsort
      by_cases hts : ts ≤ t
      · show (if ts ≤ t then scanFrom t rest (i + 1) (i : Int) else acc) = _
        rw [if_pos hts]
        show _ = lastLEGo t rest (i + 1) (if ts ≤ t then (i : Int) else acc)
        rw [if_pos hts]
        exact ih htail (i + 1) i
      · show (if ts ≤ t then scanFrom t rest (i + 1) (i : Int) else acc) = _
        rw [if_neg hts]
        show _ = lastLEGo t rest (i + 1) (if ts ≤ t then (i : Int) else acc)
        rw [if_neg hts]
        exact (lastLEGo_none t rest
          (fun q hq => by
            have := hhead q hq
            omega) (i + 1) acc).symm

theorem lastLEGo_append (t : Int) (l1 l2 : List (Int × List Char)) :
    ∀ i acc, lastLEGo t (l1 ++ l2) i acc =
      lastLEGo t l2 (i + l1.length) (lastLEGo t l1 i acc) := by
  induction l1 with
  | nil => intro i acc; simp [lastLEGo]
  | cons p rest ih =>
      intro i acc
      obtain ⟨ts, x⟩ := p
      show lastLEGo t (rest ++ l2) (i + 1) _ = _
      rw [ih (i + 1)]
      have : i + 1 + rest.length = i + (rest.length + 1) := by omega
      rw [this]
      rfl

theorem lastLEGo_cons_le (t ts : Int) (x : List Char)
    (rest : List (Int × List Char)) (hts : ts ≤ t) (i : Nat) (acc : Int) :
    lastLEGo t ((ts, x) :: rest) i acc = lastLEGo t rest (i + 1) (i : Int) := by
  show lastLEGo t rest (i + 1) (if ts ≤ t then (i : Int) else acc) = _
  rw [if_pos hts]

/-- C3: for a timestamp-sorted lyric list and a consistent matcher state —
no line matched yet (`cur = -1`), or the last matched line's timestamp still
≤ the query time, which holds throughout a session because the play time is
monotone — the forward scan from the last matched index selects exactly the
last line whose timestamp is ≤ the current time; and when no line qualifies
the resulting index is "none" (-1) and the display text is blank. -/
theorem c3_lyric_match (lyrics : List (Int × List Char)) (cur t : Int)
    (hsort : lyrics.Sorted (fun p q => p.1 ≤ q.1))
    (hcur : cur = -1 ∨ (0 ≤ cur ∧
      ∃ p, lyrics.get? cur.toNat = some p ∧ p.1 ≤ t)) :
    updateLyricIndex lyrics cur t = lastIndexLE t lyrics ∧
    (lastIndexLE t lyrics = -1 →
      lyricDisplayText lyrics (updateLyricIndex lyrics cur t) = []) := by
  have hmain : updateLyricIndex lyrics cur t = lastIndexLE t lyrics := by
    cases hl : lyrics with
    | nil =>
        rcases hcur with hc | ⟨hc, p, hp, _⟩
        · subst hc
          rfl
        · rw [hl] at hp
          exact absurd hp (by simp)
    | cons q qs =>
        rw [← hl]
        unfold updateLyricIndex
        rw [if_neg (by rw [hl]; simp)]
        rcases hcur with hc | ⟨hc, p, hp, hple⟩
        · subst hc
          rw [if_neg (by omega)]
          unfold lastIndexLE
          exact scanFrom_eq_lastLEGo t lyrics hsort 0 (-1)
        · rw [if_pos hc]
          set s := cur.toNat with hs
          have hslen : s < lyrics.length := by
            by_contra hge
            rw [List.get?_eq_none.mpr (by omega)] at hp
            exact Option.noConfusion hp
          have hdrop : lyrics.drop s = p :: lyrics.drop (s + 1) := by
            have hget : lyrics[s] = p := by
              have := List.get?_eq_getElem? lyrics s
              rw [this, List.getElem?_eq_getElem hslen] at hp
              exact Option.some.inj hp
            rw [← hget]
            exact List.drop_eq_getElem_cons hslen
          have hsorted_drop : (lyrics.drop s).Sorted (fun p q => p.1 ≤ q.1) :=
            List.Pairwise.drop hsort
          rw [scanFrom_eq_lastLEGo t (lyrics.drop s) hsorted_drop s (-1)]
          unfold lastIndexLE
          rw [show lyrics = lyrics.take s ++ lyrics.drop s from
            (List.take_append_drop s lyrics).symm]
          rw [lastLEGo_append, List.take_append_drop]
          rw [List.length_take, Nat.min_eq_left (le_of_lt hslen), Nat.zero_add]
          rw [hdrop, lastLEGo_cons_le t p.1 p.2 _ hple,
            lastLEGo_cons_le t p.1 p.2 _ hple]
  refine ⟨hmain, ?_⟩
  intro hnone
  rw [hmain, hnone]
  rfl

/-- C3 witness: with lines at 0, 1000, 2000 ms and no line matched yet,
querying time 1500 selects index 1 (the 1000 ms line), and querying time
-100 selects no line (-1) with a blank display. -/
theorem c3_lyric_match_witness :
    updateLyricIndex
        [((0 : Int), "x".toList), (1000, "y".toList), (2000, "z".toList)]
        (-1) 1500 = 1 ∧
    updateLyricIndex
        [((0 : Int), "x".toList), (1000, "y".toList), (2000, "z".toList)]
        (-1) (-100) = -1 ∧
    lyricDisplayText
        [((0 : Int), "x".toList), (1000, "y".toList), (2000, "z".toList)]
        (updateLyricIndex
          [((0 : Int), "x".toList), (1000, "y".toList), (2000, "z".toList)]
          (-1) (-100)) = [] := by
  have h1 := c3_lyric_match
    [((0 : Int), "x".toList), (1000, "y".toList), (2000, "z".toList)]
    (-1) 1500 (by decide) (Or.inl rfl)
  have h2 := c3_lyric_match
    [((0 : Int), "x".toList), (1000, "y".toList), (2000, "z".toList)]
    (-1) (-100) (by decide) (Or.inl rfl)
  refine ⟨?_, ?_, h2.2 (by decide)⟩
  · rw [h1.1]
    decide
  · rw [h2.1]
    decide

/-! ### Lyric download retry loop (`DownloadLyrics`)

The loop runs `while (retry_count < 3 && !success && redirect_count < 5)`;
every iteration either succeeds (break) or increments `retry_count`, and
`redirect_count` is never incremented anywhere (the 3xx branch bumps
`retry_count`), so the fuel is `3 - retry_count` and `redirect_count` stays
0.  An iteration sleeps 500 ms when `retry_count > 0`, creates an HTTP
client (`CreateHttp` may return null — no request is sent then), opens a GET
against `current_url` — which is never reassigned, so the `Location` header
of a 3xx response is never requested — and treats a 3xx status, a non-2xx
status, and a read error with no accumulated data all as failures; a clean
end of stream, or a negative read after some data, ends the loop as
success. -/

/-- How the body-read loop of one attempt ended. -/
inductive ReadEnd where
  | clean (data : List Char)
  | errAfter (data : List Char)

/-- The observable outcome of the network for one attempt. -/
structure LyricAttempt where
  httpOk : Bool
  openOk : Bool
  status : Int
  location : List Char
  readResult : ReadEnd

def isRedirectStatus (st : Int) : Bool :=
  st == 301 || st == 302 || st == 303 || st == 307 || st == 308

/-- Whether one attempt ends the retry loop with success (`some content`),
following the branch structure of the C++ iteration body. -/
def attemptOutcome (a : LyricAttempt) : Option (List Char) :=
  if a.httpOk = false then none
  else if a.openOk = false then none
  else if isRedirectStatus a.status then none
  else if a.status < 200 ∨ 300 ≤ a.status then none
  else
    match a.readResult with
    | .clean d => some d
    | .errAfter d => if d.isEmpty then none else some d

/-- Externally visible events of the fetch loop: an HTTP request to a URL,
or a sleep of the given number of milliseconds. -/
inductive FetchEv where
  | req (url : List Char)
  | sleepMs (ms : Nat)

def isReqEv : FetchEv → Bool
  | FetchEv.req _ => true
  | _ => false

def isSleepEv : FetchEv → Bool
  | FetchEv.sleepMs _ => true
  | _ => false

/-- The events of one iteration: the 500 ms pause before every retry (not
before the first attempt), then the GET to the — always original — URL
(absent when `CreateHttp` returned null). -/
def attemptEvents (url : List Char) (first : Bool) (a : LyricAttempt) :
    List FetchEv :=
  (if first then [] else [FetchEv.sleepMs 500]) ++
    (if a.httpOk then [FetchEv.req url] else [])

/-- The retry loop: `attempt` is `retry_count`, `redirects` is the (never
incremented) `redirect_count`, the fuel is `3 - retry_count`. -/
def fetchGo (url : List Char) (resp : Nat → LyricAttempt) :
    Nat → Nat → Nat → List FetchEv × Option (List Char)
  | _, _, 0 => ([], none)
  | attempt, redirects, fuel + 1 =>
      if 5 ≤ redirects then ([], none)
      else
        let a := resp attempt
        let evs := attemptEvents url (attempt == 0) a
        match attemptOutcome a with
        | some d => (evs, some d)
        | none =>
            let next := fetchGo url resp (attempt + 1) redirects fuel
            (evs ++ next.1, next.2)

/-- Translation of the retry loop of `DownloadLyrics` for a given lyric URL
and network behavior `resp` (the attempt-indexed outcomes): the produced
event trace and the accumulated body, if any attempt succeeded. -/
def DownloadLyricsRun (url : List Char) (resp : Nat → LyricAttempt) :
    List FetchEv × Option (List Char) :=
  fetchGo url resp 0 0 3

theorem attemptEvents_req_count (url : List Char) (first : Bool)
    (a : LyricAttempt) : (attemptEvents url first a).countP isReqEv ≤ 1 := by
  unfold attemptEvents
  split <;> split <;> simp [isReqEv, isSleepEv, List.countP_cons]

theorem attemptEvents_sleep_count (url : List Char) (a : LyricAttempt) :
    (attemptEvents url true a).countP isSleepEv = 0 ∧
    (attemptEvents url false a).countP isSleepEv = 1 := by
  constructor
  · cases ha : a.httpOk <;> simp [attemptEvents, ha, isSleepEv]
  · cases ha : a.httpOk <;> simp [attemptEvents, ha, isSleepEv]

theorem attemptEvents_mem (url : List Char) (first : Bool) (a : LyricAttempt)
    (e : FetchEv) (he : e ∈ attemptEvents url first a) :
    e = FetchEv.sleepMs 500 ∨ e = FetchEv.req url := by
  unfold attemptEvents at he
  rw [List.mem_append] at he
  rcases he with h | h
  · left
    split at h
    · exact absurd h (List.not_mem_nil e)
    · simpa using h
  · right
    split at h
    · simpa using h
    · exact absurd h (List.not_mem_nil e)

theorem downloadLyricsRun_trace (url : List Char) (resp : Nat → LyricAttempt) :
    (DownloadLyricsRun url resp).1 =
      attemptEvents url true (resp 0) ++
        (if attemptOutcome (resp 0) = none then
          attemptEvents url false (resp 1) ++
            (if attemptOutcome (resp 1) = none then
              attemptEvents url false (resp 2)
            else [])
        else []) := by
  unfold DownloadLyricsRun
  rcases h0 : attemptOutcome (resp 0) with _ | d0 <;>
    rcases h1 : attemptOutcome (resp 1) with _ | d1 <;>
      rcases h2 : attemptOutcome (resp 2) with _ | d2 <;>
        simp [fetchGo, h0, h1, h2]

/-- C8: in every run of the lyric-fetch retry loop, at most 3 attempts (GET
requests) are made; every event is either a 500 ms pause or a request to
the original URL — so a 3xx `Location` target is never requested; at most
two pauses occur, with a pause present before the second attempt whenever
the first fails and exactly two pauses whenever the first two fail; and a
3xx status always makes its attempt a failure (so the next attempt, if any,
retries the same original URL). -/
theorem c8_lyric_retry (url : List Char) (resp : Nat → LyricAttempt) :
    (DownloadLyricsRun url resp).1.countP isReqEv ≤ 3 ∧
    (∀ e ∈ (DownloadLyricsRun url resp).1,
      e = FetchEv.sleepMs 500 ∨ e = FetchEv.req url) ∧
    (DownloadLyricsRun url resp).1.countP isSleepEv ≤ 2 ∧
    (attemptOutcome (resp 0) = none →
      1 ≤ (DownloadLyricsRun url resp).1.countP isSleepEv) ∧
    (attemptOutcome (resp 0) = none → attemptOutcome (resp 1) = none →
      (DownloadLyricsRun url resp).1.countP isSleepEv = 2) ∧
    (∀ k, isRedirectStatus (resp k).status = true →
      attemptOutcome (resp k) = none) := by
  have htrace := downloadLyricsRun_trace url resp
  have hs0 := (attemptEvents_sleep_count url (resp 0)).1
  have hs1 := (attemptEvents_sleep_count url (resp 1)).2
  have hs2 := (attemptEvents_sleep_count url (resp 2)).2
  have hr0 := attemptEvents_req_count url true (resp 0)
  have hr1 := attemptEvents_req_count url false (resp 1)
  have hr2 := attemptEvents_req_count url false (resp 2)
  refine ⟨?_, ?_, ?_, ?_, ?_, ?_⟩
  · rw [htrace]
    by_cases h0 : attemptOutcome (resp 0) = none <;>
      by_cases h1 : attemptOutcome (resp 1) = none <;>
        simp [h0, h1, List.countP_append] <;> omega
  · intro e he
    rw [htrace] at he
    rcases List.mem_append.mp he with h | h
    · exact attemptEvents_mem url true (resp 0) e h
    · split at h
      · rcases List.mem_append.mp h with h' | h'
        · exact attemptEvents_mem url false (resp 1) e h'
        · split at h'
          · exact attemptEvents_mem url false (resp 2) e h'
          · exact absurd h' (List.not_mem_nil e)
      · exact absurd h (List.not_mem_nil e)
  · rw [htrace]
    by_cases h0 : attemptOutcome (resp 0) = none <;>
      by_cases h1 : attemptOutcome (resp 1) = none <;>
        simp [h0, h1, List.countP_append, hs0, hs1, hs2]
  · intro h0
    rw [htrace]
    by_cases h1 : attemptOutcome (resp 1) = none <;>
      simp [h0, h1, List.countP_append, hs0, hs1, hs2]
  · intro h0 h1
    rw [htrace]
    simp [h0, h1, List.countP_append, hs0, hs1, hs2]
  · intro k hk
    unfold attemptOutcome
    split_ifs <;> rfl

/-- C8 witness: with a network that always answers 302 (a redirect to
another location), every attempt fails, three requests to the original URL
and two 500 ms pauses are made, and the redirect's `Location` target is
never requested. -/
theorem c8_lyric_retry_witness :
    (DownloadLyricsRun ("http://a/l.lrc".toList)
        (fun _ => ⟨true, true, 302, "http://other/loc".toList,
          ReadEnd.clean []⟩)).1.countP isReqEv ≤ 3 ∧
    attemptOutcome (⟨true, true, 302, "http://other/loc".toList,
        ReadEnd.clean []⟩ : LyricAttempt) = none ∧
    (DownloadLyricsRun ("http://a/l.lrc".toList)
        (fun _ => ⟨true, true, 302, "http://other/loc".toList,
          ReadEnd.clean []⟩)).1.countP isSleepEv = 2 ∧
    (FetchEv.req ("http://other/loc".toList)) ∉
      (DownloadLyricsRun ("http://a/l.lrc".toList)
        (fun _ => ⟨true, true, 302, "http://other/loc".toList,
          ReadEnd.clean []⟩)).1 := by
  have h := c8_lyric_retry ("http://a/l.lrc".toList)
    (fun _ => ⟨true, true, 302, "http://other/loc".toList, ReadEnd.clean []⟩)
  refine ⟨h.1, h.2.2.2.2.2 0 (by decide), h.2.2.2.2.1 (by decide) (by decide), ?_⟩
  intro hmem
  rcases h.2.1 _ hmem with hc | hc
  · exact FetchEv.noConfusion hc
  · have : ("http://other/loc".toList : List Char) = "http://a/l.lrc".toList :=
      by injection hc
    exact absurd this (by decide)

end Esp32Radio
